import Mathlib

/-!
Shallow embedding of the `plai` live chess coordinator (Go sources under
`server/`): the move loop (`Hub.playMove`), provider answer processing
(`ai-move.go`), suggestion validation (`Hub.validateAndParseMove`), the
broadcast hub (`Hub.run`) and the session/side-assignment state, together
with theorems about the spec's claims.

External collaborators (the `notnil/chess` rules engine, the network, the
random source) are modelled as explicit parameters: the rules engine as an
`Engine` record, provider transports as an oracle `Nat → Except String String`
giving the raw text (or error) of each attempt, and each `rand.Intn(n)` draw
as a natural-number parameter reduced modulo `n`.
-/

namespace Plai

/-! ### Go string helpers (`strings.TrimSpace`, `strings.Trim`, `strings.Fields`) -/

/-- The whitespace class used by Go's `strings.TrimSpace` / `strings.Fields`
(ASCII subset; provider answers are ASCII chess moves). -/
def isSpaceGo (c : Char) : Bool :=
  c = ' ' || c = '\t' || c = '\n' || c = '\r' || c = '\x0b' || c = '\x0c'

/-- The cutset `"\"'"` of the `strings.Trim` call in `validateAndParseMove`. -/
def isQuoteGo (c : Char) : Bool :=
  c = '"' || c = '\''

/-- Remove characters satisfying `p` from both ends of a string
(Go's `strings.Trim(s, cutset)` / `strings.TrimSpace` shape). -/
def trimBothGo (p : Char → Bool) (s : String) : String :=
  ⟨((s.data.dropWhile p).reverse.dropWhile p).reverse⟩

/-- `strings.TrimSpace`. -/
def trimSpaceGo (s : String) : String := trimBothGo isSpaceGo s

/-- `strings.Trim(s, "\"'")`. -/
def trimQuotesGo (s : String) : String := trimBothGo isQuoteGo s

/-- Accumulator for `fieldsGo`: splits a character list into maximal runs of
non-whitespace characters. -/
def fieldsAux : List Char → List Char → List (List Char)
  | [], cur => if cur.isEmpty then [] else [cur.reverse]
  | c :: rest, cur =>
    if isSpaceGo c then
      if cur.isEmpty then fieldsAux rest [] else cur.reverse :: fieldsAux rest []
    else fieldsAux rest (c :: cur)

/-- Go's `strings.Fields`: whitespace-separated words, empties discarded. -/
def fieldsGo (s : String) : List String :=
  (fieldsAux s.data []).map List.asString

/-! ### Rules-engine collaborator (external, `notnil/chess`) -/

/-- A legal move as the coordinator sees it: its short-form (SAN) text as
produced by the engine's algebraic encoder for the current position, and its
long-form identifier as produced by `Move.String()` (e.g. `"e2e4"`). -/
structure MoveT where
  san : String
  uci : String
deriving DecidableEq

inductive Color where
  | white
  | black
deriving DecidableEq

inductive Outcome where
  | noOutcome
  | whiteWon
  | blackWon
  | drawn
deriving DecidableEq

/-- `Outcome.String()` of `notnil/chess` as used by `Database.SaveGame`. -/
def outcomeString : Outcome → String
  | .noOutcome => "*"
  | .whiteWon => "1-0"
  | .blackWon => "0-1"
  | .drawn => "1/2-1/2"

/-- The observable state of `*chess.Game` consumed by the coordinator:
`FEN()`, `Position().Turn()`, `Outcome()`, `ValidMoves()` (each move paired
with its SAN and long-form strings), the rendered board (`generateSVG`),
and the `Moves()` count and PGN text consumed by `Database.SaveGame`. -/
structure GameV where
  fen : String
  turn : Color
  outcome : Outcome
  validMoves : List MoveT
  svg : String
  movesPlayed : Nat
  pgn : String
deriving DecidableEq

/-- The rules-engine collaborator: `chess.NewGame()` and `Game.Move(m)`
(`none` models a move-application error return). -/
structure Engine where
  newGame : GameV
  apply : GameV → MoveT → Option GameV

/-! ### Players and side assignment -/

inductive AIPlayer where
  | chatGPT
  | claude
deriving DecidableEq

def AIPlayer.toName : AIPlayer → String
  | .chatGPT => "ChatGPT"
  | .claude => "Claude"

/-- The side-assignment draw of `newHub` and of the rollover branch of
`Hub.playMove`: `rand.Intn(2) == 0` assigns ChatGPT the white pieces,
otherwise Claude.  The random draw is modelled by `r % 2`. -/
def assignPlayers (r : Nat) : AIPlayer × AIPlayer :=
  if r % 2 = 0 then (.chatGPT, .claude) else (.claude, .chatGPT)

/-! ### Provider answer processing (`ai-move.go`) -/

/-- `getChatGPTMove`'s treatment of a successful response body:
`strings.TrimSpace` of the message content, nothing else. -/
def chatGPTProcess (raw : String) : String := trimSpaceGo raw

/-- `getClaudeMove`'s treatment of a successful response body:
`strings.TrimSpace`, then `strings.Fields` and the first word if any
("Extract just the move if Claude included extra text"). -/
def claudeProcess (raw : String) : String :=
  let moveText := trimSpaceGo raw
  match fieldsGo moveText with
  | w :: _ => w
  | [] => moveText

def processFor : AIPlayer → String → String
  | .chatGPT => chatGPTProcess
  | .claude => claudeProcess

/-- `Hub.getAIMove`: dispatch on the player; the transport, API-key and
HTTP-status failure modes of `getChatGPTMove`/`getClaudeMove` are folded into
the oracle's `Except.error` case, and a successful body goes through the
player's post-processing. -/
def getAIMove (player : AIPlayer) (rawResp : Except String String) :
    Except String String :=
  rawResp.map (processFor player)

/-! ### Suggestion validation (`Hub.validateAndParseMove`) -/

/-- The clean-up prefix of `validateAndParseMove`: `strings.TrimSpace`
followed by `strings.Trim(moveStr, "\"'")`. -/
def cleanSuggestion (moveStr : String) : String :=
  trimQuotesGo (trimSpaceGo moveStr)

/-- `Hub.validateAndParseMove`: trim whitespace then surrounding quotes, then
return the first valid move whose SAN encoding or `String()` form equals the
cleaned suggestion; `none` models the "invalid move" error return. -/
def validateAndParseMove (validMoves : List MoveT) (moveStr : String) :
    Option MoveT :=
  let s := cleanSuggestion moveStr
  validMoves.find? (fun m => m.san == s || m.uci == s)

/-- One full provider attempt on a successful transport: the raw provider
text goes through the player's post-processing and then through
`validateAndParseMove`. -/
def suggestionAccepted (player : AIPlayer) (validMoves : List MoveT)
    (raw : String) : Option MoveT :=
  validateAndParseMove validMoves (processFor player raw)

/-! ### The 3-attempt acquisition round of `Hub.playMove` -/

/-- The retry loop `for attempt := 1; attempt <= 3; attempt++` of
`Hub.playMove`, with the attempt counter and remaining budget explicit.
Returns the validated move (if any attempt succeeded) together with the
number of provider calls actually made. -/
def acquireAux (player : AIPlayer) (rawResp : Nat → Except String String)
    (validMoves : List MoveT) : Nat → Nat → Option MoveT × Nat
  | _, 0 => (none, 0)
  | attempt, n + 1 =>
    match getAIMove player (rawResp attempt) with
    | .error _ =>
      let r := acquireAux player rawResp validMoves (attempt + 1) n
      (r.1, r.2 + 1)
    | .ok moveStr =>
      match validateAndParseMove validMoves moveStr with
      | some m => (some m, 1)
      | none =>
        let r := acquireAux player rawResp validMoves (attempt + 1) n
        (r.1, r.2 + 1)

/-- The acquisition round: up to 3 attempts starting at attempt 1. -/
def acquireMove (player : AIPlayer) (rawResp : Nat → Except String String)
    (validMoves : List MoveT) : Option MoveT × Nat :=
  acquireAux player rawResp validMoves 1 3

/-- The move `Hub.playMove` ends up playing: the first validated suggestion,
or — when all 3 attempts failed — `validMoves[rand.Intn(len(validMoves))]`
(the draw modelled by `randMove % length`). -/
def selectedMove (player : AIPlayer) (rawResp : Nat → Except String String)
    (validMoves : List MoveT) (randMove : Nat) : MoveT :=
  match (acquireMove player rawResp validMoves).1 with
  | some m => m
  | none => validMoves.getD (randMove % validMoves.length) ⟨"", ""⟩

/-! ### Messages, viewers and the hub state -/

/-- The `Message` struct pushed to viewers over the websocket. -/
structure Message where
  type_ : String
  fen : String
  move : String
  turn : String
  svg : String
  viewerCount : Nat
  whitePlayer : String
  blackPlayer : String
  currentPlayer : String
deriving DecidableEq

/-- A viewer's outbound side: `sent` is the full ordered history of messages
ever put on its `send` channel, `drained` the number its `writePump` has
already taken off.  The channel occupancy is `pending`. -/
structure Viewer where
  sent : List Message
  drained : Nat
deriving DecidableEq

/-- Channel occupancy of the viewer's bounded `send` queue. -/
def Viewer.pending (v : Viewer) : Nat := v.sent.length - v.drained

/-- The buffer size of each viewer's `send` channel (`make(chan Message, 256)`). -/
def queueCapacity : Nat := 256

/-- The `Hub` struct: the viewer registry (`clients`, an association list of
viewer identities standing for the `map[*Client]bool` keys with each client's
own channel), the single current game plus side assignment, and `closed` — the
ghost log of every `close(client.send)` the hub has executed, newest first. -/
structure Hub where
  clients : List (Nat × Viewer)
  closed : List Nat
  game : GameV
  whitePlayer : AIPlayer
  blackPlayer : AIPlayer
deriving DecidableEq

def hubKeys (h : Hub) : List Nat := h.clients.map Prod.fst

def turnString : Color → String
  | .white => "white"
  | .black => "black"

/-- `h.whitePlayer` when white is to move, `h.blackPlayer` otherwise — the
`currentPlayer` computation shared by `Hub.run`'s register branch and
`Hub.playMove`. -/
def currentMover (h : Hub) : AIPlayer :=
  match h.game.turn with
  | .white => h.whitePlayer
  | .black => h.blackPlayer

/-- The full-state snapshot composed in the register branch of `Hub.run`
(`viewerCount` is `len(h.clients)` measured after the new client is added). -/
def gameStateMsg (h : Hub) (viewerCount : Nat) : Message :=
  { type_ := "game_state"
    fen := h.game.fen
    move := ""
    turn := turnString h.game.turn
    svg := h.game.svg
    viewerCount := viewerCount
    whitePlayer := h.whitePlayer.toName
    blackPlayer := h.blackPlayer.toName
    currentPlayer := (currentMover h).toName }

/-! ### The hub actor (`Hub.run`) -/

/-- The three intake cases of `Hub.run`'s `select`. -/
inductive HubEvent where
  | register (c : Nat)
  | unregister (c : Nat)
  | broadcast (m : Message)

/-- Register branch: `h.clients[client] = true` followed by the (blocking)
send of the full-state snapshot on the client's own queue.  A registering
client is freshly allocated by `serveWs` with an empty queue; the
already-present branch re-sends a snapshot on the existing queue, mirroring
the map-overwrite semantics. -/
def registerStep (h : Hub) (c : Nat) : Hub :=
  if c ∈ hubKeys h then
    let msg := gameStateMsg h h.clients.length
    { h with clients := h.clients.map (fun cv =>
        if cv.1 = c then (cv.1, { cv.2 with sent := cv.2.sent ++ [msg] }) else cv) }
  else
    let msg := gameStateMsg h (h.clients.length + 1)
    { h with clients := (c, ⟨[msg], 0⟩) :: h.clients }

/-- Unregister branch: `if _, ok := h.clients[client]; ok { delete; close }` —
a no-op when the client is not in the registry. -/
def unregisterStep (h : Hub) (c : Nat) : Hub :=
  if c ∈ hubKeys h then
    { h with clients := h.clients.filter (fun cv => cv.1 ≠ c)
             closed := c :: h.closed }
  else h

/-- Broadcast branch: per registered viewer, a non-blocking send — the
message is appended when the queue has capacity, otherwise the viewer's queue
is closed and the viewer deleted from the registry. -/
def broadcastStep (h : Hub) (m : Message) : Hub :=
  { h with
    clients := (h.clients.filter (fun cv => cv.2.pending < queueCapacity)).map
      (fun cv => (cv.1, { cv.2 with sent := cv.2.sent ++ [m] }))
    closed := (h.clients.filter (fun cv => ¬ cv.2.pending < queueCapacity)).map
      Prod.fst ++ h.closed }

/-- One `select` iteration of `Hub.run`. -/
def hubStep (h : Hub) : HubEvent → Hub
  | .register c => registerStep h c
  | .unregister c => unregisterStep h c
  | .broadcast m => broadcastStep h m

/-- One receive by a viewer's `writePump` (only fires when the queue is
non-empty). -/
def drainStep (h : Hub) (c : Nat) : Hub :=
  { h with clients := h.clients.map (fun cv =>
      if cv.1 = c ∧ 0 < cv.2.pending then (cv.1, { cv.2 with drained := cv.2.drained + 1 })
      else cv) }

/-! ### The move loop (`Hub.playMove`, current snapshot of `server/main.go`) -/

/-- `Hub.playMove`, one tick: terminal-outcome check and rollover with a
fresh side-assignment draw, else legal-move fetch, the 3-attempt acquisition
round with random fallback, move application (abandoning the tick on an
engine error), and composition of the broadcast `Message` (whose `Move` field
is `move.String()`, the long-form identifier).  Returns the updated hub and
the message handed to the broadcast channel, if any. -/
def playMove (eng : Engine) (rawResp : Nat → Except String String)
    (randSide randMove : Nat) (h : Hub) : Hub × Option Message :=
  if h.game.outcome ≠ Outcome.noOutcome then
    let pair := assignPlayers randSide
    ({ h with game := eng.newGame, whitePlayer := pair.1, blackPlayer := pair.2 }, none)
  else
    let validMoves := h.game.validMoves
    if validMoves = [] then (h, none)
    else
      let player := currentMover h
      let move := selectedMove player rawResp validMoves randMove
      match eng.apply h.game move with
      | none => (h, none)
      | some g2 =>
        let nextPlayer : AIPlayer :=
          match g2.turn with
          | .white => h.whitePlayer
          | .black => h.blackPlayer
        let msg : Message :=
          { type_ := "move"
            fen := g2.fen
            move := move.uci
            turn := turnString g2.turn
            svg := g2.svg
            viewerCount := h.clients.length
            whitePlayer := h.whitePlayer.toName
            blackPlayer := h.blackPlayer.toName
            currentPlayer := nextPlayer.toName }
        ({ h with game := g2 }, some msg)

/-- `newHub`: empty registry, a fresh game, and the initial random side
assignment. -/
def newHub (eng : Engine) (r : Nat) : Hub :=
  let pair := assignPlayers r
  { clients := []
    closed := []
    game := eng.newGame
    whitePlayer := pair.1
    blackPlayer := pair.2 }

/-! ### Whole-system interleaving -/

/-- The events any one scheduling of the system can interleave: a hub intake
(`Hub.run` select case), one `writePump` receive, or one `gameLoop` tick
running `Hub.playMove` (whose engine, provider oracle and random draws are
that tick's external inputs).  The hub state changes of a tick are the
`playMove` update; the message it emits reaches the registry only through a
later `intake (broadcast …)` event. -/
inductive SysEvent where
  | intake (e : HubEvent)
  | drain (c : Nat)
  | tick (eng : Engine) (rawResp : Nat → Except String String) (randSide randMove : Nat)

def sysStep (h : Hub) : SysEvent → Hub
  | .intake e => hubStep h e
  | .drain c => drainStep h c
  | .tick eng raw rs rm => (playMove eng raw rs rm h).1

def sysRun (h : Hub) (es : List SysEvent) : Hub := es.foldl sysStep h

/-- Identities registered by a trace. -/
def regIds (es : List SysEvent) : List Nat :=
  es.filterMap (fun e =>
    match e with
    | .intake (.register c) => some c
    | _ => none)

/-- The hub states the running system can be in: some `newHub` start followed
by any interleaving of intakes, drains and ticks. -/
inductive Reachable (eng : Engine) : Hub → Prop
  | init (r : Nat) : Reachable eng (newHub eng r)
  | step {h : Hub} (e : SysEvent) : Reachable eng h → Reachable eng (sysStep h e)

/-! ### Persistence (`Database.SaveGame` and its spec-modelled call site) -/

/-- The row `Database.SaveGame` inserts into `games`. -/
structure GameRecord where
  whitePlayer : String
  blackPlayer : String
  winner : Option String
  outcome : String
  startedAt : Nat
  endedAt : Nat
  totalMoves : Nat
  pgn : String
deriving DecidableEq

/-- The pure content of `Database.SaveGame` (src/unnamed/part_002): the
outcome string, the winner's provider name for a decisive outcome, the move
count and the PGN text, assembled into the inserted row. -/
def saveGameRecord (whitePlayer blackPlayer : String) (game : GameV)
    (startedAt endedAt : Nat) : GameRecord :=
  let outcomeStr := outcomeString game.outcome
  let winner : Option String :=
    if game.outcome = Outcome.whiteWon then some whitePlayer
    else if game.outcome = Outcome.blackWon then some blackPlayer
    else none
  { whitePlayer := whitePlayer
    blackPlayer := blackPlayer
    winner := winner
    outcome := outcomeStr
    startedAt := startedAt
    endedAt := endedAt
    totalMoves := game.movesPlayed
    pgn := game.pgn }

/-- Modelled from the spec: the head revision of `Hub.playMove` that wires
`Database.SaveGame` into the terminal branch is not among the source
snapshots (the snapshots under `src/` predate the database wiring; only
`Database.SaveGame` itself, the schema and the README describe it).  Per
spec §6/§7 the persistence append is invoked exactly once per terminal
Session, on that Session's data, before the rollover; `dbResult` is the
append's outcome, which is only logged — the rollover (delegated to
`playMove`'s terminal branch) proceeds regardless.  The second component is
the list of append invocations made this tick, paired with their results. -/
def playMovePersist (eng : Engine) (rawResp : Nat → Except String String)
    (randSide randMove : Nat) (dbResult : Except String Unit)
    (startedAt endedAt : Nat) (h : Hub) :
    (Hub × Option Message) × List (GameRecord × Except String Unit) :=
  if h.game.outcome ≠ Outcome.noOutcome then
    let row := saveGameRecord h.whitePlayer.toName h.blackPlayer.toName h.game
      startedAt endedAt
    (playMove eng rawResp randSide randMove h, [(row, dbResult)])
  else
    (playMove eng rawResp randSide randMove h, [])

/-! ### Concrete instances (spec §8 end-to-end scenario and witnesses) -/

def e4Move : MoveT := ⟨"e4", "e2e4"⟩
def d4Move : MoveT := ⟨"d4", "d2d4"⟩
def nf3Move : MoveT := ⟨"Nf3", "g1f3"⟩

/-- The spec's end-to-end legal-move set `{"e4","d4","Nf3"}`. -/
def scenarioMoves : List MoveT := [e4Move, d4Move, nf3Move]

def scenarioStart : GameV :=
  { fen := "startFEN"
    turn := .white
    outcome := .noOutcome
    validMoves := scenarioMoves
    svg := "svg0"
    movesPlayed := 0
    pgn := "" }

def scenarioAfter : GameV :=
  { fen := "afterFEN"
    turn := .black
    outcome := .noOutcome
    validMoves := []
    svg := "svg1"
    movesPlayed := 1
    pgn := "1. e4" }

/-- A rules engine for the scenario position: applying any move succeeds and
yields `scenarioAfter`. -/
def scenarioEngine : Engine :=
  { newGame := scenarioStart
    apply := fun _ _ => some scenarioAfter }

/-- An engine whose move application always errors (for the
move-application-failure claim). -/
def failingEngine : Engine :=
  { newGame := scenarioStart
    apply := fun _ _ => none }

/-- Provider oracle of the scenario: `"e4"` on attempt 1, transport errors on
every later attempt. -/
def scenarioRaw : Nat → Except String String :=
  fun n => if n = 1 then .ok "e4" else .error "provider unavailable"

/-- Provider oracle that always fails. -/
def erroringRaw : Nat → Except String String :=
  fun _ => .error "timeout"

def scenarioHub : Hub :=
  { clients := []
    closed := []
    game := scenarioStart
    whitePlayer := .chatGPT
    blackPlayer := .claude }

/-- A finished-game hub state (white delivered mate). -/
def finishedHub : Hub :=
  { clients := []
    closed := []
    game := { scenarioStart with outcome := .whiteWon, validMoves := [], pgn := "1. e4 f6 2. d4 g5 3. Qh5#" }
    whitePlayer := .chatGPT
    blackPlayer := .claude }

/-- A "move" message used in hub-trace witnesses. -/
def sampleMoveMsg : Message :=
  { type_ := "move"
    fen := "afterFEN"
    move := "e2e4"
    turn := "black"
    svg := "svg1"
    viewerCount := 1
    whitePlayer := "ChatGPT"
    blackPlayer := "Claude"
    currentPlayer := "Claude" }

/-! ### Helper lemmas -/

lemma getD_mem_of_lt {α : Type} {l : List α} {n : Nat} {d : α} (h : n < l.length) :
    l.getD n d ∈ l := by
  induction l generalizing n with
  | nil => simp at h
  | cons a l ih =>
    cases n with
    | zero => simp [List.getD]
    | succ n =>
      simp only [List.length_cons, Nat.succ_lt_succ_iff] at h
      exact List.mem_cons_of_mem _ (ih h)

lemma validateAndParseMove_mem {vm : List MoveT} {s : String} {m : MoveT}
    (h : validateAndParseMove vm s = some m) : m ∈ vm :=
  List.mem_of_find?_eq_some h

lemma validateAndParseMove_eq {vm : List MoveT} {s : String} {m : MoveT}
    (h : validateAndParseMove vm s = some m) :
    cleanSuggestion s = m.san ∨ cleanSuggestion s = m.uci := by
  have hp := List.find?_some h
  simp only [Bool.or_eq_true, beq_iff_eq] at hp
  rcases hp with hp | hp
  · exact Or.inl hp.symm
  · exact Or.inr hp.symm

lemma acquireAux_mem {player : AIPlayer} {raw : Nat → Except String String}
    {vm : List MoveT} {m : MoveT} :
    ∀ {a n : Nat}, (acquireAux player raw vm a n).1 = some m → m ∈ vm := by
  intro a n
  induction n generalizing a with
  | zero => intro h; simp [acquireAux] at h
  | succ n ih =>
    intro h
    rw [acquireAux] at h
    rcases hr : getAIMove player (raw a) with e | s
    · rw [hr] at h; exact ih h
    · rw [hr] at h
      dsimp only at h
      rcases hv : validateAndParseMove vm s with _ | m'
      · rw [hv] at h; exact ih h
      · rw [hv] at h
        dsimp only at h
        obtain rfl : m' = m := Option.some.inj h
        exact validateAndParseMove_mem hv

lemma acquireMove_mem {player : AIPlayer} {raw : Nat → Except String String}
    {vm : List MoveT} {m : MoveT} (h : (acquireMove player raw vm).1 = some m) :
    m ∈ vm :=
  acquireAux_mem h

lemma selectedMove_mem {player : AIPlayer} {raw : Nat → Except String String}
    {vm : List MoveT} {rm : Nat} (hne : vm ≠ []) :
    selectedMove player raw vm rm ∈ vm := by
  unfold selectedMove
  rcases hacq : (acquireMove player raw vm).1 with _ | m
  · exact getD_mem_of_lt (Nat.mod_lt _ (List.length_pos.mpr hne))
  · exact acquireMove_mem hacq

/-- The terminal branch of `playMove`: rollover with fresh assignment, no
move, no broadcast. -/
lemma playMove_terminal {eng : Engine} {raw : Nat → Except String String}
    {rs rm : Nat} {h : Hub} (hout : h.game.outcome ≠ Outcome.noOutcome) :
    playMove eng raw rs rm h =
      ({ h with game := eng.newGame
                whitePlayer := (assignPlayers rs).1
                blackPlayer := (assignPlayers rs).2 }, none) := by
  simp [playMove, hout]

/-- On a non-terminal tick the side assignment is untouched and the game
either stays unchanged (empty move set or application failure, with no
broadcast) or advances by the selected move's application. -/
lemma playMove_nonterminal {eng : Engine} {raw : Nat → Except String String}
    {rs rm : Nat} {h : Hub} (hout : h.game.outcome = Outcome.noOutcome) :
    (playMove eng raw rs rm h).1.whitePlayer = h.whitePlayer ∧
    (playMove eng raw rs rm h).1.blackPlayer = h.blackPlayer ∧
    ((playMove eng raw rs rm h).1.game = h.game ∧ (playMove eng raw rs rm h).2 = none ∨
      eng.apply h.game (selectedMove (currentMover h) raw h.game.validMoves rm) =
        some (playMove eng raw rs rm h).1.game) := by
  rw [playMove]
  simp only [hout, ne_eq, not_true_eq_false, if_false, reduceIte]
  by_cases hvm : h.game.validMoves = []
  · simp [hvm]
  · simp only [hvm, if_false, reduceIte]
    rcases happ : eng.apply h.game (selectedMove (currentMover h) raw h.game.validMoves rm)
      with _ | g2
    · simp
    · simp [happ]

/-- C1: for every non-empty legal-move set the acquisition round of
`playMove` yields a member of the legal-move set with no error surfaced, and
when all 3 attempts fail the move is the uniformly drawn
`validMoves[rand.Intn(len(validMoves))]`. -/
theorem moveAcquisition_total_and_legal (player : AIPlayer)
    (raw : Nat → Except String String) (vm : List MoveT) (rm : Nat)
    (hne : vm ≠ []) :
    selectedMove player raw vm rm ∈ vm ∧
    ((acquireMove player raw vm).1 = none →
      selectedMove player raw vm rm = vm.getD (rm % vm.length) ⟨"", ""⟩) := by
  refine ⟨selectedMove_mem hne, fun hnone => ?_⟩
  unfold selectedMove
  rw [hnone]

theorem moveAcquisition_total_and_legal_witness :
    selectedMove .chatGPT erroringRaw scenarioMoves 5 ∈ scenarioMoves ∧
    ((acquireMove .chatGPT erroringRaw scenarioMoves).1 = none →
      selectedMove .chatGPT erroringRaw scenarioMoves 5 =
        scenarioMoves.getD (5 % scenarioMoves.length) ⟨"", ""⟩) :=
  moveAcquisition_total_and_legal .chatGPT erroringRaw scenarioMoves 5 (by decide)

/-- C2 counterexample: the Claude provider path extracts the first
whitespace-separated word of the answer before validation, so the suggestion
`"Nf3 is the best"` is accepted although after whitespace/quote trimming it
matches neither the SAN nor the long-form of any legal move. -/
theorem validation_firstword_counterexample :
    suggestionAccepted .claude [nf3Move] "Nf3 is the best" = some nf3Move ∧
    cleanSuggestion "Nf3 is the best" ≠ nf3Move.san ∧
    cleanSuggestion "Nf3 is the best" ≠ nf3Move.uci :=
  ⟨rfl, by decide, by decide⟩

/-- C2 amended: `validateAndParseMove` itself accepts a string iff, after
trimming whitespace then surrounding quotes, it exactly equals the SAN or the
long-form identifier of some legal move (and returns such a move); the
ChatGPT provider path feeds it the whitespace-trimmed answer unchanged, but
the Claude provider path first replaces the answer by its first
whitespace-separated word. -/
theorem validation_exact_match (vm : List MoveT) (s : String) :
    ((validateAndParseMove vm s).isSome ↔
      ∃ m ∈ vm, cleanSuggestion s = m.san ∨ cleanSuggestion s = m.uci) ∧
    (∀ m, validateAndParseMove vm s = some m →
      m ∈ vm ∧ (cleanSuggestion s = m.san ∨ cleanSuggestion s = m.uci)) ∧
    (∀ raw, suggestionAccepted .chatGPT vm raw = validateAndParseMove vm (trimSpaceGo raw)) ∧
    (∀ raw, suggestionAccepted .claude vm raw = validateAndParseMove vm (claudeProcess raw)) := by
  refine ⟨?_, fun m hm => ⟨validateAndParseMove_mem hm, validateAndParseMove_eq hm⟩,
    fun raw => rfl, fun raw => rfl⟩
  unfold validateAndParseMove
  rw [List.find?_isSome]
  constructor
  · rintro ⟨m, hm, hp⟩
    simp only [Bool.or_eq_true, beq_iff_eq] at hp
    exact ⟨m, hm, hp.imp Eq.symm Eq.symm⟩
  · rintro ⟨m, hm, hp⟩
    refine ⟨m, hm, ?_⟩
    simp only [Bool.or_eq_true, beq_iff_eq]
    exact hp.imp Eq.symm Eq.symm

theorem validation_exact_match_witness :
    (validateAndParseMove scenarioMoves " \"e4\" ").isSome :=
  ((validation_exact_match scenarioMoves " \"e4\" ").1).mpr
    ⟨e4Move, by decide, Or.inl (by decide)⟩

/-- C3: exactly when the Session's outcome is terminal, the tick replaces the
Session by a fresh game with a freshly drawn side assignment and plays no
move (broadcasts nothing); on a non-terminal tick the side assignment is
never touched and the game only changes by applying the selected move. -/
theorem rollover_exactly_on_terminal (eng : Engine)
    (raw : Nat → Except String String) (rs rm : Nat) (h : Hub) :
    (h.game.outcome ≠ Outcome.noOutcome →
      playMove eng raw rs rm h =
        ({ h with game := eng.newGame
                  whitePlayer := (assignPlayers rs).1
                  blackPlayer := (assignPlayers rs).2 }, none)) ∧
    (h.game.outcome = Outcome.noOutcome →
      (playMove eng raw rs rm h).1.whitePlayer = h.whitePlayer ∧
      (playMove eng raw rs rm h).1.blackPlayer = h.blackPlayer ∧
      ((playMove eng raw rs rm h).1.game = h.game ∧ (playMove eng raw rs rm h).2 = none ∨
        eng.apply h.game (selectedMove (currentMover h) raw h.game.validMoves rm) =
          some (playMove eng raw rs rm h).1.game)) :=
  ⟨fun hout => playMove_terminal hout, fun hout => playMove_nonterminal hout⟩

theorem rollover_exactly_on_terminal_witness :
    playMove scenarioEngine scenarioRaw 1 0 finishedHub =
      ({ finishedHub with game := scenarioEngine.newGame
                          whitePlayer := (assignPlayers 1).1
                          blackPlayer := (assignPlayers 1).2 }, none) :=
  (rollover_exactly_on_terminal scenarioEngine scenarioRaw 1 0 finishedHub).1 (by decide)

/-- C4: on a terminal tick the persistence append is invoked exactly once,
on the terminal Session's data (players, outcome, move count, PGN) before its
replacement; the append's result does not influence the rollover, which
proceeds as `playMove`'s terminal branch; a non-terminal tick appends
nothing. -/
theorem persistence_once_before_rollover (eng : Engine)
    (raw : Nat → Except String String) (rs rm : Nat)
    (db : Except String Unit) (t0 t1 : Nat) (h : Hub) :
    (h.game.outcome ≠ Outcome.noOutcome →
      (playMovePersist eng raw rs rm db t0 t1 h).2 =
        [(saveGameRecord h.whitePlayer.toName h.blackPlayer.toName h.game t0 t1, db)] ∧
      (playMovePersist eng raw rs rm db t0 t1 h).1 =
        ({ h with game := eng.newGame
                  whitePlayer := (assignPlayers rs).1
                  blackPlayer := (assignPlayers rs).2 }, none) ∧
      (∀ db', (playMovePersist eng raw rs rm db' t0 t1 h).1 =
        (playMovePersist eng raw rs rm db t0 t1 h).1)) ∧
    (h.game.outcome = Outcome.noOutcome →
      (playMovePersist eng raw rs rm db t0 t1 h).2 = []) := by
  constructor
  · intro hout
    refine ⟨?_, ?_, fun db' => ?_⟩ <;> simp [playMovePersist, hout, playMove_terminal hout]
  · intro hout
    simp [playMovePersist, hout]

theorem persistence_once_before_rollover_witness :
    (playMovePersist scenarioEngine scenarioRaw 0 0 (.error "db down") 10 20 finishedHub).2 =
      [(saveGameRecord "ChatGPT" "Claude" finishedHub.game 10 20, .error "db down")] ∧
    (playMovePersist scenarioEngine scenarioRaw 0 0 (.error "db down") 10 20 finishedHub).1 =
      ({ finishedHub with game := scenarioEngine.newGame
                          whitePlayer := (assignPlayers 0).1
                          blackPlayer := (assignPlayers 0).2 }, none) := by
  have hmain := (persistence_once_before_rollover scenarioEngine scenarioRaw 0 0
    (.error "db down") 10 20 finishedHub).1 (by decide)
  exact ⟨hmain.1, hmain.2.1⟩

/-- C8: when applying the acquired move fails in the engine, the tick is
abandoned: no broadcast is emitted and the hub state — in particular the
Session — is unchanged, so the next tick runs against the same position. -/
theorem applyFailure_abandons_tick (eng : Engine)
    (raw : Nat → Except String String) (rs rm : Nat) (h : Hub)
    (hout : h.game.outcome = Outcome.noOutcome)
    (hne : h.game.validMoves ≠ [])
    (happ : eng.apply h.game (selectedMove (currentMover h) raw h.game.validMoves rm) = none) :
    playMove eng raw rs rm h = (h, none) := by
  rw [playMove]
  simp [hout, hne, happ]

theorem applyFailure_abandons_tick_witness :
    playMove failingEngine erroringRaw 0 2 scenarioHub = (scenarioHub, none) :=
  applyFailure_abandons_tick failingEngine erroringRaw 0 2 scenarioHub
    (by decide) (by decide) (by rfl)

/-- C9 counterexample: in the spec's end-to-end scenario the acquisition does
return the move whose SAN is `"e4"` on attempt 1, but the broadcast message's
`Move` field is `move.String()` — the long-form `"e2e4"`, not the notation
`"e4"` the claim states. -/
theorem broadcast_longform_counterexample :
    acquireMove .chatGPT scenarioRaw scenarioMoves = (some e4Move, 1) ∧
    e4Move.san = "e4" ∧
    (playMove scenarioEngine scenarioRaw 0 0 scenarioHub).2.map Message.move = some "e2e4" ∧
    ("e2e4" : String) ≠ "e4" :=
  ⟨rfl, rfl, rfl, by decide⟩

/-- C9 amended: with legal-move set `{"e4","d4","Nf3"}` and the provider
returning `"e4"` on attempt 1, acquisition returns the `"e4"` move
immediately with exactly one attempt consumed (later attempts, which would
all error, are never reached), and the move-applied broadcast carries the
move's long-form identifier `"e2e4"` (`move.String()`) in its `Move` field. -/
theorem scenario_first_attempt (rs rm : Nat) :
    acquireMove .chatGPT scenarioRaw scenarioMoves = (some e4Move, 1) ∧
    (∀ n, 2 ≤ n → scenarioRaw n = .error "provider unavailable") ∧
    playMove scenarioEngine scenarioRaw rs rm scenarioHub =
      ({ scenarioHub with game := scenarioAfter },
        some { type_ := "move", fen := "afterFEN", move := "e2e4", turn := "black",
               svg := "svg1", viewerCount := 0, whitePlayer := "ChatGPT",
               blackPlayer := "Claude", currentPlayer := "Claude" }) := by
  refine ⟨rfl, fun n hn => ?_, rfl⟩
  rw [scenarioRaw, if_neg]
  omega

theorem scenario_first_attempt_witness :
    scenarioRaw 2 = .error "provider unavailable" ∧
    (playMove scenarioEngine scenarioRaw 0 0 scenarioHub).2.map Message.fen =
      some "afterFEN" := by
  refine ⟨(scenario_first_attempt 0 0).2.1 2 (by decide), ?_⟩
  rw [(scenario_first_attempt 0 0).2.2]
  rfl

/-! ### Side assignment (C7) -/

lemma assignPlayers_ne (r : Nat) : (assignPlayers r).1 ≠ (assignPlayers r).2 := by
  unfold assignPlayers
  split <;> decide

lemma hubStep_players (h : Hub) (e : HubEvent) :
    (hubStep h e).whitePlayer = h.whitePlayer ∧
    (hubStep h e).blackPlayer = h.blackPlayer := by
  cases e with
  | register c =>
    simp only [hubStep, registerStep]
    split <;> exact ⟨rfl, rfl⟩
  | unregister c =>
    simp only [hubStep, unregisterStep]
    split <;> exact ⟨rfl, rfl⟩
  | broadcast m => exact ⟨rfl, rfl⟩

lemma sysStep_players (h : Hub) (e : SysEvent) :
    ((sysStep h e).whitePlayer = h.whitePlayer ∧
      (sysStep h e).blackPlayer = h.blackPlayer) ∨
    ∃ r, (sysStep h e).whitePlayer = (assignPlayers r).1 ∧
      (sysStep h e).blackPlayer = (assignPlayers r).2 := by
  cases e with
  | intake e => exact Or.inl (hubStep_players h e)
  | drain c => exact Or.inl ⟨rfl, rfl⟩
  | tick eng raw rs rm =>
    by_cases hout : h.game.outcome = Outcome.noOutcome
    · exact Or.inl ⟨(playMove_nonterminal hout).1, (playMove_nonterminal hout).2.1⟩
    · right
      refine ⟨rs, ?_, ?_⟩ <;> simp [sysStep, playMove_terminal hout]

/-- C7: in every reachable hub state the two colors are held by distinct
provider identities; the side assignment is the image of a fresh
`rand.Intn(2)` draw at every session creation (initial and rollover), and
that draw hits both possible pairings of ChatGPT and Claude. -/
theorem side_assignment_invariant (eng : Engine) :
    (∀ h, Reachable eng h → h.whitePlayer ≠ h.blackPlayer) ∧
    assignPlayers 0 = (.chatGPT, .claude) ∧
    assignPlayers 1 = (.claude, .chatGPT) ∧
    (∀ r, assignPlayers r = assignPlayers (r % 2)) := by
  refine ⟨?_, by decide, by decide, fun r => ?_⟩
  · intro h hr
    induction hr with
    | init r => exact assignPlayers_ne r
    | step e _ ih =>
      rcases sysStep_players _ e with ⟨hw, hb⟩ | ⟨r, hw, hb⟩
      · rw [hw, hb]; exact ih
      · rw [hw, hb]; exact assignPlayers_ne r
  · have h2 : r % 2 % 2 = r % 2 := Nat.mod_mod_of_dvd r dvd_rfl
    simp [assignPlayers, h2]

theorem side_assignment_invariant_witness :
    (sysStep (newHub scenarioEngine 0)
        (.tick scenarioEngine scenarioRaw 1 0)).whitePlayer ≠
      (sysStep (newHub scenarioEngine 0)
        (.tick scenarioEngine scenarioRaw 1 0)).blackPlayer :=
  (side_assignment_invariant scenarioEngine).1 _
    (Reachable.step _ (Reachable.init 0))

/-! ### Broadcast backpressure (C5) -/

/-- C5: one broadcast intake delivers the message to every registered viewer
whose queue has capacity (its entry survives with the message appended) and
deregisters every viewer whose queue is full, closing its queue — all in one
total, non-blocking registry pass. -/
theorem broadcast_backpressure_isolation (h : Hub) (m : Message)
    (hnd : (hubKeys h).Nodup) (c : Nat) (v : Viewer)
    (hmem : (c, v) ∈ h.clients) :
    (v.pending < queueCapacity →
      (c, { v with sent := v.sent ++ [m] }) ∈ (broadcastStep h m).clients) ∧
    (¬ v.pending < queueCapacity →
      ¬ c ∈ hubKeys (broadcastStep h m) ∧ c ∈ (broadcastStep h m).closed) := by
  constructor
  · intro hlt
    simp only [broadcastStep]
    exact List.mem_map_of_mem _ (List.mem_filter.mpr ⟨hmem, by simpa using hlt⟩)
  · intro hge
    constructor
    · intro hc
      simp only [broadcastStep, hubKeys, List.map_map, List.mem_map] at hc
      obtain ⟨cv, hcv, hfst⟩ := hc
      have hcv' := List.mem_filter.mp hcv
      have : cv = (c, v) := by
        refine List.inj_on_of_nodup_map hnd hcv'.1 hmem ?_
        simpa using hfst
      rw [this] at hcv'
      simp only [decide_eq_true_eq] at hcv'
      exact hge hcv'.2
    · simp only [broadcastStep, List.mem_append, List.mem_map]
      exact Or.inl ⟨(c, v), List.mem_filter.mpr ⟨hmem, by simpa using hge⟩, rfl⟩

def fullViewer : Viewer := ⟨List.replicate queueCapacity sampleMoveMsg, 0⟩

def healthyViewer : Viewer := ⟨[], 0⟩

/-- Two connected viewers, one with a saturated queue. -/
def twoViewerHub : Hub :=
  { clients := [(1, fullViewer), (2, healthyViewer)]
    closed := []
    game := scenarioStart
    whitePlayer := .chatGPT
    blackPlayer := .claude }

theorem broadcast_backpressure_isolation_witness :
    (2, { healthyViewer with sent := healthyViewer.sent ++ [sampleMoveMsg] }) ∈
      (broadcastStep twoViewerHub sampleMoveMsg).clients ∧
    ¬ 1 ∈ hubKeys (broadcastStep twoViewerHub sampleMoveMsg) ∧
    1 ∈ (broadcastStep twoViewerHub sampleMoveMsg).closed := by
  have hfull := (broadcast_backpressure_isolation twoViewerHub sampleMoveMsg
    (by decide) 1 fullViewer (by simp [twoViewerHub])).2
    (by simp [fullViewer, Viewer.pending])
  have hok := (broadcast_backpressure_isolation twoViewerHub sampleMoveMsg
    (by decide) 2 healthyViewer (by simp [twoViewerHub])).1 (by decide)
  exact ⟨hok, hfull.1, hfull.2⟩

/-! ### Step lemmas for hub traces -/

/-- A tick never touches the registry or the close log: `playMove` only
reads `len(h.clients)` and writes the game and side-assignment fields. -/
lemma playMove_state (eng : Engine) (raw : Nat → Except String String)
    (rs rm : Nat) (h : Hub) :
    (playMove eng raw rs rm h).1.clients = h.clients ∧
    (playMove eng raw rs rm h).1.closed = h.closed := by
  rw [playMove]
  split
  · exact ⟨rfl, rfl⟩
  · dsimp only
    split
    · exact ⟨rfl, rfl⟩
    · split <;> exact ⟨rfl, rfl⟩

lemma registerStep_of_not_mem {h : Hub} {d : Nat} (hd : ¬ d ∈ hubKeys h) :
    registerStep h d =
      { h with clients :=
          (d, (⟨[gameStateMsg h (h.clients.length + 1)], 0⟩ : Viewer)) :: h.clients } := by
  simp [registerStep, hd]

lemma registerStep_closed (h : Hub) (d : Nat) :
    (registerStep h d).closed = h.closed := by
  simp only [registerStep]
  split <;> rfl

lemma mem_registerStep_of_ne {h : Hub} {d c : Nat} {v : Viewer} (hne : c ≠ d)
    (hmem : (c, v) ∈ (registerStep h d).clients) : (c, v) ∈ h.clients := by
  simp only [registerStep] at hmem
  split at hmem
  · simp only [List.mem_map] at hmem
    obtain ⟨cv, hcv, heq⟩ := hmem
    by_cases hc : cv.1 = d
    · rw [if_pos hc] at heq
      have h1 : cv.1 = c := congrArg Prod.fst heq
      exact absurd (h1.symm.trans hc) hne
    · rw [if_neg hc] at heq
      exact heq ▸ hcv
  · rcases List.mem_cons.mp hmem with heq | h2
    · have h1 : c = d := congrArg Prod.fst heq
      exact absurd h1 hne
    · exact h2

lemma mem_unregisterStep {h : Hub} {d c : Nat} {v : Viewer}
    (hmem : (c, v) ∈ (unregisterStep h d).clients) : (c, v) ∈ h.clients := by
  simp only [unregisterStep] at hmem
  split at hmem
  · exact (List.mem_filter.mp hmem).1
  · exact hmem

lemma mem_broadcastStep {h : Hub} {m : Message} {c : Nat} {v' : Viewer}
    (hmem : (c, v') ∈ (broadcastStep h m).clients) :
    ∃ v, (c, v) ∈ h.clients ∧ v' = { v with sent := v.sent ++ [m] } := by
  simp only [broadcastStep, List.mem_map] at hmem
  obtain ⟨cv, hcv, heq⟩ := hmem
  rcases cv with ⟨c0, v0⟩
  obtain ⟨rfl, rfl⟩ := Prod.mk.injEq .. ▸ heq
  exact ⟨v0, (List.mem_filter.mp hcv).1, rfl⟩

lemma mem_drainStep {h : Hub} {d c : Nat} {v' : Viewer}
    (hmem : (c, v') ∈ (drainStep h d).clients) :
    ∃ v, (c, v) ∈ h.clients ∧ v'.sent = v.sent := by
  simp only [drainStep, List.mem_map] at hmem
  obtain ⟨cv, hcv, heq⟩ := hmem
  rcases cv with ⟨c0, v0⟩
  by_cases hcond : c0 = d ∧ 0 < v0.pending
  · rw [if_pos hcond] at heq
    obtain ⟨rfl, rfl⟩ := Prod.mk.injEq .. ▸ heq
    exact ⟨v0, hcv, rfl⟩
  · rw [if_neg hcond] at heq
    obtain ⟨rfl, rfl⟩ := Prod.mk.injEq .. ▸ heq
    exact ⟨v0, hcv, rfl⟩

lemma hubKeys_drainStep (h : Hub) (d : Nat) :
    hubKeys (drainStep h d) = hubKeys h := by
  suffices hgen : ∀ l : List (Nat × Viewer),
      (l.map (fun cv =>
        if cv.1 = d ∧ 0 < cv.2.pending then (cv.1, { cv.2 with drained := cv.2.drained + 1 })
        else cv)).map Prod.fst = l.map Prod.fst by
    exact hgen h.clients
  intro l
  induction l with
  | nil => rfl
  | cons cv l ih =>
    simp only [List.map_cons, ih, List.cons.injEq, and_true]
    split <;> rfl

lemma mem_regIds_cons {c : Nat} {e : SysEvent} {es : List SysEvent}
    (h : c ∈ regIds es) : c ∈ regIds (e :: es) := by
  cases e with
  | intake he =>
    cases he with
    | register d => simpa [regIds, List.filterMap_cons] using Or.inr h
    | unregister d => simpa [regIds, List.filterMap_cons] using h
    | broadcast m => simpa [regIds, List.filterMap_cons] using h
  | drain d => simpa [regIds, List.filterMap_cons] using h
  | tick eng raw rs rm => simpa [regIds, List.filterMap_cons] using h

lemma regIds_append (l1 l2 : List SysEvent) :
    regIds (l1 ++ l2) = regIds l1 ++ regIds l2 :=
  List.filterMap_append l1 l2 _

/-- Whatever a single system event does, an entry of a viewer that is not
being registered by that event descends from an entry already present, its
history intact except for the single appended broadcast message. -/
lemma sysStep_sent_transport {h : Hub} {e : SysEvent} {c : Nat}
    (hne : ∀ d, e = SysEvent.intake (HubEvent.register d) → c ≠ d) :
    ∀ v', (c, v') ∈ (sysStep h e).clients →
      ∃ v, (c, v) ∈ h.clients ∧
        (v'.sent = v.sent ∨
          ∃ m, e = SysEvent.intake (HubEvent.broadcast m) ∧ v'.sent = v.sent ++ [m]) := by
  intro v' hv'
  cases e with
  | intake he =>
    cases he with
    | register d =>
      exact ⟨v', mem_registerStep_of_ne (hne d rfl) hv', Or.inl rfl⟩
    | unregister d => exact ⟨v', mem_unregisterStep hv', Or.inl rfl⟩
    | broadcast m =>
      obtain ⟨v, hv, heq⟩ := mem_broadcastStep hv'
      exact ⟨v, hv, Or.inr ⟨m, rfl, by rw [heq]⟩⟩
  | drain d =>
    obtain ⟨v, hv, heq⟩ := mem_drainStep hv'
    exact ⟨v, hv, Or.inl heq⟩
  | tick eng raw rs rm =>
    rw [sysStep, (playMove_state eng raw rs rm h).1] at hv'
    exact ⟨v', hv', Or.inl rfl⟩

/-- Running a trace that never (re-)registers viewer `c` only ever appends
broadcast messages of that trace to `c`'s delivery history. -/
lemma sysRun_sent_from_broadcasts (B : Message → Prop) :
    ∀ (es : List SysEvent) (h : Hub) (c : Nat) (base : List Message),
      ¬ c ∈ regIds es →
      (∀ m, SysEvent.intake (HubEvent.broadcast m) ∈ es → B m) →
      (∀ v, (c, v) ∈ h.clients → ∃ rest, v.sent = base ++ rest ∧ ∀ m ∈ rest, B m) →
      ∀ v, (c, v) ∈ (sysRun h es).clients →
        ∃ rest, v.sent = base ++ rest ∧ ∀ m ∈ rest, B m := by
  intro es
  induction es with
  | nil => intro h c base _ _ hseed v hv; exact hseed v hv
  | cons e es ih =>
    intro h c base hreg hB hseed v hv
    have hreg' : ¬ c ∈ regIds es := fun hc => hreg (mem_regIds_cons hc)
    have hB' : ∀ m, SysEvent.intake (HubEvent.broadcast m) ∈ es → B m :=
      fun m hm => hB m (List.mem_cons_of_mem _ hm)
    have hne : ∀ d, e = SysEvent.intake (HubEvent.register d) → c ≠ d := by
      intro d hd hcd
      subst hd hcd
      exact hreg (by simp [regIds, List.filterMap_cons])
    refine ih (sysStep h e) c base hreg' hB' ?_ v (by simpa [sysRun] using hv)
    intro v' hv'
    obtain ⟨v0, hv0, hcase⟩ := sysStep_sent_transport hne v' hv'
    obtain ⟨rest, hrest, hBr⟩ := hseed v0 hv0
    rcases hcase with hsame | ⟨m, hm, happ⟩
    · exact ⟨rest, by rw [hsame, hrest], hBr⟩
    · refine ⟨rest ++ [m], by rw [happ, hrest, List.append_assoc], ?_⟩
      intro m' hm'
      rcases List.mem_append.mp hm' with h1 | h1
      · exact hBr m' h1
      · rw [List.mem_singleton.mp h1]
        exact hB m (hm ▸ List.mem_cons_self _ _)

/-- C6: a viewer that registers at some point of a system trace has, at
every later point it is still registered, the full-state snapshot composed at
its registration as the first message of its delivery history, followed
exclusively by move-applied broadcasts submitted after its registration —
never an event from before it joined, and no second snapshot. -/
theorem viewer_snapshot_first (h0 : Hub) (es1 es2 : List SysEvent)
    (c : Nat) (v : Viewer)
    (hfresh : ¬ c ∈ hubKeys (sysRun h0 es1))
    (hreg2 : ¬ c ∈ regIds es2)
    (hmove : ∀ m, SysEvent.intake (HubEvent.broadcast m) ∈ es2 → m.type_ = "move")
    (hmem : (c, v) ∈
      (sysRun h0 (es1 ++ SysEvent.intake (HubEvent.register c) :: es2)).clients) :
    ∃ rest,
      v.sent = gameStateMsg (sysRun h0 es1) ((sysRun h0 es1).clients.length + 1) :: rest ∧
      (gameStateMsg (sysRun h0 es1) ((sysRun h0 es1).clients.length + 1)).type_ =
        "game_state" ∧
      ∀ m ∈ rest, m.type_ = "move" ∧ SysEvent.intake (HubEvent.broadcast m) ∈ es2 := by
  set h1 := sysRun h0 es1 with hh1
  set msg := gameStateMsg h1 (h1.clients.length + 1) with hmsg
  have hrun : sysRun h0 (es1 ++ SysEvent.intake (HubEvent.register c) :: es2) =
      sysRun (sysStep h1 (SysEvent.intake (HubEvent.register c))) es2 := by
    simp [sysRun, List.foldl_append, hh1]
  have hstep : sysStep h1 (SysEvent.intake (HubEvent.register c)) =
      { h1 with clients := (c, (⟨[msg], 0⟩ : Viewer)) :: h1.clients } := by
    simp only [sysStep, hubStep]
    rw [registerStep_of_not_mem hfresh]
  rw [hrun, hstep] at hmem
  have hseed : ∀ v0 : Viewer,
      (c, v0) ∈ ({ h1 with clients := (c, (⟨[msg], 0⟩ : Viewer)) :: h1.clients } : Hub).clients →
      ∃ rest, v0.sent = [msg] ++ rest ∧
        ∀ m ∈ rest, m.type_ = "move" ∧ SysEvent.intake (HubEvent.broadcast m) ∈ es2 := by
    intro v0 hv0
    rcases List.mem_cons.mp hv0 with heq | hmem0
    · obtain rfl : v0 = ⟨[msg], 0⟩ := congrArg Prod.snd heq
      exact ⟨[], by simp, by simp⟩
    · exact absurd (List.mem_map_of_mem Prod.fst hmem0) hfresh
  obtain ⟨rest, hrest, hB⟩ := sysRun_sent_from_broadcasts
    (fun m => m.type_ = "move" ∧ SysEvent.intake (HubEvent.broadcast m) ∈ es2)
    es2 _ c [msg] hreg2 (fun m hm => ⟨hmove m hm, hm⟩) hseed v hmem
  exact ⟨rest, by simpa using hrest, rfl, hB⟩

theorem viewer_snapshot_first_witness :
    ∃ rest,
      (⟨[gameStateMsg scenarioHub 1, sampleMoveMsg], 0⟩ : Viewer).sent =
        gameStateMsg (sysRun scenarioHub []) ((sysRun scenarioHub []).clients.length + 1) :: rest ∧
      (gameStateMsg (sysRun scenarioHub []) ((sysRun scenarioHub []).clients.length + 1)).type_ =
        "game_state" ∧
      ∀ m ∈ rest, m.type_ = "move" ∧
        SysEvent.intake (HubEvent.broadcast m) ∈ [SysEvent.intake (HubEvent.broadcast sampleMoveMsg)] := by
  refine viewer_snapshot_first scenarioHub [] [SysEvent.intake (HubEvent.broadcast sampleMoveMsg)]
    7 ⟨[gameStateMsg scenarioHub 1, sampleMoveMsg], 0⟩ (by decide) (by decide) ?_ ?_
  · intro m hm
    rcases List.mem_singleton.mp hm with heq
    cases heq
    rfl
  · decide

/-! ### Close-at-most-once invariant (C10) -/

/-- Registry/close-log sanity: registry keys are distinct, the close log has
no repeats, and no closed viewer is still registered. -/
def hubInv (h : Hub) : Prop :=
  (hubKeys h).Nodup ∧ h.closed.Nodup ∧ ∀ c ∈ h.closed, ¬ c ∈ hubKeys h

lemma hubInv_sysStep {h : Hub} {e : SysEvent} (hinv : hubInv h)
    (hfreshReg : ∀ d, e = SysEvent.intake (HubEvent.register d) →
      ¬ d ∈ hubKeys h ∧ ¬ d ∈ h.closed) :
    hubInv (sysStep h e) ∧
    ∀ c, ¬ c ∈ hubKeys h → ¬ c ∈ h.closed →
      (∀ d, e = SysEvent.intake (HubEvent.register d) → c ≠ d) →
      ¬ c ∈ hubKeys (sysStep h e) ∧ ¬ c ∈ (sysStep h e).closed := by
  obtain ⟨hk, hcl, hdisj⟩ := hinv
  cases e with
  | intake he =>
    cases he with
    | register d =>
      obtain ⟨hd1, hd2⟩ := hfreshReg d rfl
      simp only [sysStep, hubStep]
      rw [registerStep_of_not_mem hd1]
      have hkeys' : hubKeys
          ({ h with clients := (d, (⟨[gameStateMsg h (h.clients.length + 1)], 0⟩ : Viewer)) ::
            h.clients } : Hub) = d :: hubKeys h := by
        simp [hubKeys]
      constructor
      · refine ⟨?_, hcl, ?_⟩
        · rw [hkeys']
          exact List.nodup_cons.mpr ⟨hd1, hk⟩
        · intro x hx
          rw [hkeys']
          simp only [List.mem_cons, not_or]
          exact ⟨fun hxd => hd2 (hxd ▸ hx), hdisj x hx⟩
      · intro c hck hcc hne
        rw [hkeys']
        simp only [List.mem_cons, not_or]
        exact ⟨⟨hne d rfl, hck⟩, hcc⟩
    | unregister d =>
      simp only [sysStep, hubStep, unregisterStep]
      by_cases hd : d ∈ hubKeys h
      · rw [if_pos hd]
        have hsub : (hubKeys ({ h with
            clients := h.clients.filter (fun cv => cv.1 ≠ d)
            closed := d :: h.closed } : Hub)).Sublist (hubKeys h) :=
          (h.clients.filter_sublist).map Prod.fst
        have hdNotIn : ∀ x, x ∈ hubKeys ({ h with
            clients := h.clients.filter (fun cv => cv.1 ≠ d)
            closed := d :: h.closed } : Hub) → x ≠ d := by
          intro x hx
          simp only [hubKeys, List.mem_map] at hx
          obtain ⟨cv, hcv, rfl⟩ := hx
          have := (List.mem_filter.mp hcv).2
          simpa using this
        constructor
        · refine ⟨hk.sublist hsub, ?_, ?_⟩
          · exact List.nodup_cons.mpr ⟨fun hdc => hdisj d hdc hd, hcl⟩
          · intro x hx
            rcases List.mem_cons.mp hx with rfl | hx2
            · intro hmem
              exact hdNotIn x hmem rfl
            · intro hmem
              exact hdisj x hx2 (hsub.subset hmem)
        · intro c hck hcc _
          constructor
          · exact fun hmem => hck (hsub.subset hmem)
          · intro hmem
            rcases List.mem_cons.mp hmem with rfl | hx2
            · exact hck hd
            · exact hcc hx2
      · rw [if_neg hd]
        exact ⟨⟨hk, hcl, hdisj⟩, fun c hck hcc _ => ⟨hck, hcc⟩⟩
    | broadcast m =>
      simp only [sysStep, hubStep]
      have hkeys' : hubKeys (broadcastStep h m) =
          (h.clients.filter (fun cv => cv.2.pending < queueCapacity)).map Prod.fst := by
        simp only [broadcastStep, hubKeys, List.map_map]
        rfl
      have hclosed' : (broadcastStep h m).closed =
          (h.clients.filter (fun cv => ¬ cv.2.pending < queueCapacity)).map Prod.fst ++
            h.closed := rfl
      have hsub1 : ((h.clients.filter (fun cv => cv.2.pending < queueCapacity)).map
          Prod.fst).Sublist (hubKeys h) :=
        (h.clients.filter_sublist).map Prod.fst
      have hsub2 : ((h.clients.filter (fun cv => ¬ cv.2.pending < queueCapacity)).map
          Prod.fst).Sublist (hubKeys h) :=
        (h.clients.filter_sublist).map Prod.fst
      have hnew_old : ∀ x, x ∈ (h.clients.filter
          (fun cv => ¬ cv.2.pending < queueCapacity)).map Prod.fst →
          x ∈ (h.clients.filter (fun cv => cv.2.pending < queueCapacity)).map Prod.fst →
          False := by
        intro x hx1 hx2
        simp only [List.mem_map] at hx1 hx2
        obtain ⟨cv1, hcv1, hf1⟩ := hx1
        obtain ⟨cv2, hcv2, hf2⟩ := hx2
        have hmem1 := List.mem_filter.mp hcv1
        have hmem2 := List.mem_filter.mp hcv2
        have heq : cv1 = cv2 :=
          List.inj_on_of_nodup_map hk hmem1.1 hmem2.1 (hf1.trans hf2.symm)
        have hp1 := hmem1.2
        have hp2 := hmem2.2
        rw [heq] at hp1
        simp only [decide_eq_true_eq] at hp1 hp2
        exact hp1 hp2
      constructor
      · refine ⟨?_, ?_, ?_⟩
        · rw [hkeys']
          exact hk.sublist hsub1
        · rw [hclosed']
          refine ((hk.sublist hsub2).append hcl) ?_
          intro x hx1 hx2
          exact hdisj x hx2 (hsub2.subset hx1)
        · intro x hx
          rw [hclosed'] at hx
          rw [hkeys']
          rcases List.mem_append.mp hx with hx1 | hx2
          · exact fun hmem => hnew_old x hx1 hmem
          · exact fun hmem => hdisj x hx2 (hsub1.subset hmem)
      · intro c hck hcc _
        constructor
        · rw [hkeys']
          exact fun hmem => hck (hsub1.subset hmem)
        · rw [hclosed']
          intro hmem
          rcases List.mem_append.mp hmem with hx1 | hx2
          · exact hck (hsub2.subset hx1)
          · exact hcc hx2
  | drain d =>
    have hkeys' := hubKeys_drainStep h d
    have hclosed' : (drainStep h d).closed = h.closed := rfl
    exact ⟨⟨hkeys' ▸ hk, hclosed' ▸ hcl,
        fun x hx => hkeys' ▸ hdisj x (hclosed' ▸ hx)⟩,
      fun c hck hcc _ => ⟨hkeys' ▸ hck, hclosed' ▸ hcc⟩⟩
  | tick eng raw rs rm =>
    have hcl' := (playMove_state eng raw rs rm h).1
    have hcld' := (playMove_state eng raw rs rm h).2
    have hkeys' : hubKeys (sysStep h (SysEvent.tick eng raw rs rm)) = hubKeys h := by
      simp only [sysStep, hubKeys, hcl']
    have hclosed' : (sysStep h (SysEvent.tick eng raw rs rm)).closed = h.closed := hcld'
    exact ⟨⟨hkeys' ▸ hk, hclosed' ▸ hcl,
        fun x hx => hkeys' ▸ hdisj x (hclosed' ▸ hx)⟩,
      fun c hck hcc _ => ⟨hkeys' ▸ hck, hclosed' ▸ hcc⟩⟩

lemma sysRun_hubInv : ∀ (es : List SysEvent) (h : Hub),
    hubInv h → (regIds es).Nodup →
    (∀ c ∈ regIds es, ¬ c ∈ hubKeys h ∧ ¬ c ∈ h.closed) →
    hubInv (sysRun h es) := by
  intro es
  induction es with
  | nil => intro h hinv _ _; exact hinv
  | cons e es ih =>
    intro h hinv hnd hfresh
    have hsplit : regIds (e :: es) = regIds [e] ++ regIds es :=
      regIds_append [e] es
    have hfresh_e : ∀ d, e = SysEvent.intake (HubEvent.register d) →
        ¬ d ∈ hubKeys h ∧ ¬ d ∈ h.closed := by
      intro d hd
      subst hd
      exact hfresh d (by simp [regIds, List.filterMap_cons])
    obtain ⟨hinv', htrans⟩ := hubInv_sysStep hinv hfresh_e
    have hnd' : (regIds es).Nodup := by
      rw [hsplit] at hnd
      exact (List.nodup_append.mp hnd).2.1
    have hdisj_head : ∀ c ∈ regIds es, ¬ c ∈ regIds [e] := by
      rw [hsplit] at hnd
      intro c hc hce
      exact (List.nodup_append.mp hnd).2.2 hce hc
    have hfresh' : ∀ c ∈ regIds es,
        ¬ c ∈ hubKeys (sysStep h e) ∧ ¬ c ∈ (sysStep h e).closed := by
      intro c hcm
      obtain ⟨hck, hcc⟩ := hfresh c (mem_regIds_cons hcm)
      refine htrans c hck hcc ?_
      intro d hd hcd
      subst hd
      subst hcd
      exact hdisj_head c hcm (by simp [regIds, List.filterMap_cons])
    have : sysRun h (e :: es) = sysRun (sysStep h e) es := by
      simp [sysRun]
    rw [this]
    exact ih (sysStep h e) hinv' hnd' hfresh'

/-- C10: deregistering a viewer that is no longer in the registry is a
complete no-op (no second close, no registry change); along any system trace
whose registrations are fresh, starting from a sane hub state, the close log
stays duplicate-free — every viewer queue is closed at most once, whether the
close came from deregistration or from a full-queue backpressure trip. -/
theorem close_at_most_once :
    (∀ (h : Hub) (c : Nat), ¬ c ∈ hubKeys h → hubStep h (HubEvent.unregister c) = h) ∧
    (∀ (h0 : Hub) (es : List SysEvent), hubInv h0 → (regIds es).Nodup →
      (∀ c ∈ regIds es, ¬ c ∈ hubKeys h0 ∧ ¬ c ∈ h0.closed) →
      (sysRun h0 es).closed.Nodup) := by
  constructor
  · intro h c hc
    simp [hubStep, unregisterStep, hc]
  · intro h0 es hinv hnd hfresh
    exact (sysRun_hubInv es h0 hinv hnd hfresh).2.1

theorem close_at_most_once_witness :
    hubStep twoViewerHub (HubEvent.unregister 9) = twoViewerHub ∧
    (sysRun (newHub scenarioEngine 0)
      [SysEvent.intake (HubEvent.register 3),
       SysEvent.intake (HubEvent.unregister 3),
       SysEvent.intake (HubEvent.unregister 3)]).closed.Nodup := by
  constructor
  · exact close_at_most_once.1 twoViewerHub 9 (by decide)
  · refine close_at_most_once.2 _ _ ⟨by decide, by decide, by simp [newHub]⟩ (by decide) ?_
    intro c hc
    have : c = 3 := by simpa [regIds, List.filterMap_cons] using hc
    subst this
    exact ⟨by decide, by decide⟩

end Plai
